import Mathlib

/-!
Verification development for the ElfomoFi SDK quoting engine and snapshot
manager.

The Python source is shallowly embedded:

* `ProbePoint`, `DirectionBook`, `QuoteResult`, `TokenPair` mirror
  `state/models.py`.
* `calc_quote` / `calc_quote_loop` mirror `_calc_quote` in
  `quoting/engine.py`; `get_amount_out` mirrors the public entry point.
  Python's `//` is floor division, embedded as `Int.fdiv`; a division is
  wrapped in `pyFloorDiv`, which returns `none` exactly when the Python
  expression would raise `ZeroDivisionError`.  Indexing an empty list
  (`probes[0]`) would raise `IndexError`, embedded as the `none` branch of
  `calc_quote`.
* `ClientState`, `on_new_block`, `quote` mirror `client.py`.  The Python
  dict `self._directions` is embedded as a partial map
  `(String × String) → Option DirectionBook`.  The external
  `web3.to_checksum_address` normalisation is an opaque collaborator and is
  passed in as an explicit function argument.  The outcome of the awaited
  fetch (success value or raised exception) is the `FetchOutcome` argument.
-/

/-- `state/models.py`: a supported token pair as returned by the contract. -/
structure TokenPair where
  base_token : String
  quote_token : String
deriving DecidableEq, Repr

/-- `state/models.py`: single cumulative `(amountIn, amountOut)` measurement. -/
structure ProbePoint where
  amount_in : Int
  amount_out : Int
deriving DecidableEq, Repr

/-- `state/models.py`: probe data for a single trade direction. -/
structure DirectionBook where
  from_token : String
  to_token : String
  probes : List ProbePoint
  from_balance : Int
  to_balance : Int
deriving DecidableEq, Repr

/-- `state/models.py`: result of a local quote calculation. -/
structure QuoteResult where
  from_token : String
  to_token : String
  amount_in : Int
  amount_out : Int
  block_number : Int
deriving DecidableEq, Repr

/-- Python's integer floor division `a // b`: floors the quotient, and raises
`ZeroDivisionError` — embedded as `none` — when the divisor is zero. -/
def pyFloorDiv (a b : Int) : Option Int :=
  if b = 0 then none else some (Int.fdiv a b)

/-- The `for i in range(len(probes) - 1)` loop of `_calc_quote`
(`quoting/engine.py` lines 87–101), together with the final cap at the last
probe point.  `lower` is `probes[i]` and `rest` is `probes[i+1:]`; when the
loop exhausts the list, `lower` is `probes[-1]` and its `amount_out` is the
capped result. -/
def calc_quote_loop (lower : ProbePoint) (rest : List ProbePoint)
    (amount_in : Int) : Option Int :=
  match rest with
  | [] => some lower.amount_out
  | upper :: rest2 =>
    if amount_in ≤ upper.amount_in then
      let delta_in := upper.amount_in - lower.amount_in
      let delta_out := upper.amount_out - lower.amount_out
      if delta_in = 0 then some lower.amount_out
      else
        (pyFloorDiv ((amount_in - lower.amount_in) * delta_out) delta_in).map
          (fun q => lower.amount_out + q)
    else calc_quote_loop upper rest2 amount_in

/-- `_calc_quote` (`quoting/engine.py` lines 75–101).  On an empty list the
Python code would raise `IndexError` at `probes[0]`, embedded as `none`. -/
def calc_quote (probes : List ProbePoint) (amount_in : Int) : Option Int :=
  match probes with
  | [] => none
  | first :: rest =>
    if amount_in ≤ first.amount_in then
      if first.amount_in = 0 then some 0
      else pyFloorDiv (amount_in * first.amount_out) first.amount_in
    else calc_quote_loop first rest amount_in

/-- `_empty_result` (`quoting/engine.py` lines 109–121). -/
def empty_result (direction : DirectionBook) (amount_in amount_out
    block_number : Int) : QuoteResult :=
  { from_token := direction.from_token
    to_token := direction.to_token
    amount_in := amount_in
    amount_out := amount_out
    block_number := block_number }

/-- `get_amount_out` (`quoting/engine.py` lines 37–67). -/
def get_amount_out (direction : DirectionBook) (amount_in : Int)
    (block_number : Int) : Option QuoteResult :=
  if amount_in ≤ 0 ∨ direction.probes = [] then
    some (empty_result direction amount_in 0 block_number)
  else
    (calc_quote direction.probes amount_in).map (fun amount_out =>
      { from_token := direction.from_token
        to_token := direction.to_token
        amount_in := amount_in
        amount_out := amount_out
        block_number := block_number })

/-- `build_direction_book` (`state/orderbook.py` lines 15–29). -/
def build_direction_book (from_token to_token : String)
    (probes : List ProbePoint) (from_balance to_balance : Int) :
    DirectionBook :=
  { from_token := from_token
    to_token := to_token
    probes := probes
    from_balance := from_balance
    to_balance := to_balance }

/-- `fetcher/onchain.py`: raw cumulative levels for a single pair, as
returned by the helper contract. -/
structure RawPairData where
  pair : TokenPair
  ask_probes : List ProbePoint
  bid_probes : List ProbePoint
  balance_base : Int
  balance_quote : Int
deriving DecidableEq, Repr

/-- `fetcher/onchain.py`: result of a helper contract call, including block
metadata. -/
structure FetchResult where
  pairs : List RawPairData
  block_number : Int
  block_timestamp : Int
deriving DecidableEq, Repr

/-- Outcome of the awaited `self._fetcher.fetch_all_orderbooks()` call inside
`_on_new_block`: either a decoded `FetchResult` or a raised exception. -/
inductive FetchOutcome where
  | ok : FetchResult → FetchOutcome
  | raised : FetchOutcome
deriving DecidableEq, Repr

/-- The mutable fields of `ElfomoFiClient` (`client.py` lines 56–63): the
directions dict, the pair-key list, the current block number, the block
timestamp, and the `asyncio.Event` (modelled by whether it has been set). -/
structure ClientState where
  directions : (String × String) → Option DirectionBook
  pair_keys : List (String × String)
  current_block : Int
  block_timestamp : Int
  initialized : Bool

/-- `ElfomoFiClient.__init__` state initialisation (`client.py` lines 56–63):
empty dict, empty pair list, block 0, timestamp 0, event unset. -/
def init_state : ClientState :=
  { directions := fun _ => none
    pair_keys := []
    current_block := 0
    block_timestamp := 0
    initialized := false }

/-- Python `dict.__setitem__` on the directions dict. -/
def dict_insert (m : (String × String) → Option DirectionBook)
    (k : String × String) (v : DirectionBook) :
    (String × String) → Option DirectionBook :=
  fun k2 => if k2 = k then some v else m k2

/-- The `new_dirs` dict built by the loop of `_on_new_block` (`client.py`
lines 140–157): for each raw pair, insert the ask book (`quote → base`) and
the bid book (`base → quote`). -/
def build_new_dirs (prs : List RawPairData) :
    (String × String) → Option DirectionBook :=
  prs.foldl
    (fun m raw =>
      let asks := build_direction_book raw.pair.quote_token
        raw.pair.base_token raw.ask_probes raw.balance_quote raw.balance_base
      let bids := build_direction_book raw.pair.base_token
        raw.pair.quote_token raw.bid_probes raw.balance_base raw.balance_quote
      dict_insert (dict_insert m (asks.from_token, asks.to_token) asks)
        (bids.from_token, bids.to_token) bids)
    (fun _ => none)

/-- The `new_pairs` list built by the loop of `_on_new_block` (`client.py`
lines 141–146). -/
def new_pair_keys (prs : List RawPairData) : List (String × String) :=
  prs.map (fun raw => (raw.pair.base_token, raw.pair.quote_token))

/-- The state published by a successful, non-stale refresh (`client.py`
lines 168–179): all four fields are replaced from one `FetchResult` and the
initialized event is set. -/
def published_snapshot (result : FetchResult) : ClientState :=
  { directions := build_new_dirs result.pairs
    pair_keys := new_pair_keys result.pairs
    current_block := result.block_number
    block_timestamp := result.block_timestamp
    initialized := true }

/-- `_on_new_block` (`client.py` lines 129–179) as a state transformer.  A
raised fetch is caught by the `try/except` and leaves the state untouched.
Otherwise the candidate is built off to the side and discarded when
`result.block_number <= self._current_block`; the four assignments of the
publish step run between two `await` points, so under cooperative (asyncio)
scheduling they form one atomic step, which is why the whole callback is a
single state-to-state function here. -/
def on_new_block (st : ClientState) (outcome : FetchOutcome) : ClientState :=
  match outcome with
  | .raised => st
  | .ok result =>
    if result.block_number ≤ st.current_block then st
    else published_snapshot result

/-- A sequence of refresh completions applied in the order in which their
post-`await` halves were scheduled, starting from the freshly constructed
client. -/
def run_refreshes (outcomes : List FetchOutcome) : ClientState :=
  outcomes.foldl on_new_block init_state

/-- `ElfomoFiClient._get_direction` (`client.py` lines 95–99); `checksum`
stands for the external `web3.to_checksum_address` normalisation. -/
def get_direction (checksum : String → String) (st : ClientState)
    (from_token to_token : String) : Option DirectionBook :=
  st.directions (checksum from_token, checksum to_token)

/-- `ElfomoFiClient.quote` (`client.py` lines 103–125).  The outer `Option`
is exception propagation (`none` = the call raised); the inner `Option` is
the Python return value (`some none` = returned `None`, no data loaded). -/
def quote (checksum : String → String) (st : ClientState)
    (from_token to_token : String) (amount_in : Int) :
    Option (Option QuoteResult) :=
  match get_direction checksum st from_token to_token with
  | none => some none
  | some direction =>
    (get_amount_out direction amount_in st.current_block).map some

/-!  ## Curve invariants and a total description of the interpolation

`probe_le` is the data-model invariant of `state/models.py` §3: within one
curve, `amount_in` is strictly increasing and `amount_out` non-decreasing.
`calc_quote_loop_fn` / `calc_quote_fn` are total (`Int`-valued) companions of
the loop; they agree with the loop on every input because each division in
the source is guarded by a zero test. -/

/-- Curve step invariant: strictly increasing input, non-decreasing output. -/
abbrev probe_le (p q : ProbePoint) : Prop :=
  p.amount_in < q.amount_in ∧ p.amount_out ≤ q.amount_out

/-- Weaker step: strictly increasing input only. -/
abbrev probe_lt_in (p q : ProbePoint) : Prop :=
  p.amount_in < q.amount_in

/-- A well-formed curve: consecutive points satisfy `probe_le` and every
output is non-negative. -/
abbrev SortedCurve (probes : List ProbePoint) : Prop :=
  List.Chain' probe_le probes ∧ ∀ p ∈ probes, 0 ≤ p.amount_out

/-- Total companion of `calc_quote_loop`. -/
def calc_quote_loop_fn (lower : ProbePoint) (rest : List ProbePoint)
    (amount_in : Int) : Int :=
  match rest with
  | [] => lower.amount_out
  | upper :: rest2 =>
    if amount_in ≤ upper.amount_in then
      if upper.amount_in - lower.amount_in = 0 then lower.amount_out
      else lower.amount_out +
        Int.fdiv ((amount_in - lower.amount_in) *
          (upper.amount_out - lower.amount_out))
          (upper.amount_in - lower.amount_in)
    else calc_quote_loop_fn upper rest2 amount_in

/-- Total companion of `calc_quote` on a non-empty probe list. -/
def calc_quote_fn (first : ProbePoint) (rest : List ProbePoint)
    (amount_in : Int) : Int :=
  if amount_in ≤ first.amount_in then
    if first.amount_in = 0 then 0
    else Int.fdiv (amount_in * first.amount_out) first.amount_in
  else calc_quote_loop_fn first rest amount_in

/-- The `amount_out` field produced by `get_amount_out`, with `0` standing
for the (never occurring) raising case. -/
def quote_amount_out (direction : DirectionBook) (amount_in block_number :
    Int) : Int :=
  ((get_amount_out direction amount_in block_number).map
    QuoteResult.amount_out).getD 0

/-- `_calc_quote` with the `first.amount_in == 0` guard of its origin
segment removed, dividing unconditionally.  Used to express that the guard
is dead code whenever `amount_in ≥ 1`. -/
def calc_quote_noguard (probes : List ProbePoint) (amount_in : Int) :
    Option Int :=
  match probes with
  | [] => none
  | first :: rest =>
    if amount_in ≤ first.amount_in then
      pyFloorDiv (amount_in * first.amount_out) first.amount_in
    else calc_quote_loop first rest amount_in

theorem calc_quote_loop_eq_fn (lower : ProbePoint) (rest : List ProbePoint)
    (amount_in : Int) :
    calc_quote_loop lower rest amount_in =
      some (calc_quote_loop_fn lower rest amount_in) := by
  induction rest generalizing lower with
  | nil => rfl
  | cons upper rest2 ih =>
    simp only [calc_quote_loop, calc_quote_loop_fn]
    by_cases hle : amount_in ≤ upper.amount_in
    · simp only [if_pos hle]
      by_cases hz : upper.amount_in - lower.amount_in = 0
      · simp [hz]
      · simp [hz, pyFloorDiv]
    · simp only [if_neg hle]
      exact ih upper

theorem calc_quote_cons_eq_fn (first : ProbePoint) (rest : List ProbePoint)
    (amount_in : Int) :
    calc_quote (first :: rest) amount_in =
      some (calc_quote_fn first rest amount_in) := by
  simp only [calc_quote, calc_quote_fn]
  by_cases hle : amount_in ≤ first.amount_in
  · simp only [if_pos hle]
    by_cases hz : first.amount_in = 0
    · simp [hz]
    · simp [hz, pyFloorDiv]
  · simp only [if_neg hle]
    exact calc_quote_loop_eq_fn first rest amount_in

theorem getLast?_eq_some_getLastD {α : Type} (a : α) (l : List α) :
    (a :: l).getLast? = some (l.getLastD a) := by
  induction l generalizing a with
  | nil => rfl
  | cons b l2 ih => rw [List.getLastD_cons, List.getLast?_cons_cons]; exact ih b

theorem chain_out_le_getLastD (p : ProbePoint) (l : List ProbePoint)
    (h : List.Chain probe_le p l) :
    p.amount_out ≤ (l.getLastD p).amount_out := by
  induction l generalizing p with
  | nil => simp
  | cons q l2 ih =>
    cases h with
    | cons hpq hq =>
      rw [List.getLastD_cons]
      exact le_trans hpq.2 (ih q hq)

theorem chain_in_le_getLastD (p : ProbePoint) (l : List ProbePoint)
    (h : List.Chain probe_lt_in p l) :
    p.amount_in ≤ (l.getLastD p).amount_in := by
  induction l generalizing p with
  | nil => simp
  | cons q l2 ih =>
    cases h with
    | cons hpq hq =>
      rw [List.getLastD_cons]
      exact le_trans (le_of_lt hpq) (ih q hq)

theorem seg_val_ge_lower {lower upper : ProbePoint} {x : Int}
    (hlu : lower.amount_in < upper.amount_in)
    (hout : lower.amount_out ≤ upper.amount_out)
    (hx : lower.amount_in < x) :
    lower.amount_out ≤ lower.amount_out +
      Int.fdiv ((x - lower.amount_in) *
        (upper.amount_out - lower.amount_out))
        (upper.amount_in - lower.amount_in) := by
  have hd : (0:Int) < upper.amount_in - lower.amount_in := by omega
  rw [Int.fdiv_eq_ediv _ (le_of_lt hd)]
  have hn : (0:Int) ≤ (x - lower.amount_in) *
      (upper.amount_out - lower.amount_out) :=
    mul_nonneg (by omega) (by omega)
  have := Int.ediv_nonneg hn (le_of_lt hd)
  omega

theorem seg_val_le_upper {lower upper : ProbePoint} {x : Int}
    (hlu : lower.amount_in < upper.amount_in)
    (hout : lower.amount_out ≤ upper.amount_out)
    (hx : x ≤ upper.amount_in) :
    lower.amount_out +
      Int.fdiv ((x - lower.amount_in) *
        (upper.amount_out - lower.amount_out))
        (upper.amount_in - lower.amount_in) ≤ upper.amount_out := by
  have hd : (0:Int) < upper.amount_in - lower.amount_in := by omega
  rw [Int.fdiv_eq_ediv _ (le_of_lt hd)]
  have h1 : (x - lower.amount_in) * (upper.amount_out - lower.amount_out) ≤
      (upper.amount_in - lower.amount_in) *
        (upper.amount_out - lower.amount_out) :=
    mul_le_mul_of_nonneg_right (by omega) (by omega)
  have h2 := Int.ediv_le_ediv hd h1
  rw [Int.mul_ediv_cancel_left _ (ne_of_gt hd)] at h2
  omega

theorem loop_fn_ge_lower (lower : ProbePoint) (rest : List ProbePoint)
    (x : Int) (hch : List.Chain probe_le lower rest)
    (hx : lower.amount_in < x) :
    lower.amount_out ≤ calc_quote_loop_fn lower rest x := by
  induction rest generalizing lower with
  | nil => simp [calc_quote_loop_fn]
  | cons upper rest2 ih =>
    cases hch with
    | cons hpq hq =>
      simp only [calc_quote_loop_fn]
      by_cases hle : x ≤ upper.amount_in
      · have hz : ¬ (upper.amount_in - lower.amount_in = 0) := by
          have := hpq.1; omega
        simp only [if_pos hle, if_neg hz]
        exact seg_val_ge_lower hpq.1 hpq.2 hx
      · simp only [if_neg hle]
        exact le_trans hpq.2 (ih upper hq (by omega))

theorem loop_fn_le_last (lower : ProbePoint) (rest : List ProbePoint)
    (x : Int) (hch : List.Chain probe_le lower rest) :
    calc_quote_loop_fn lower rest x ≤ (rest.getLastD lower).amount_out := by
  induction rest generalizing lower with
  | nil => simp [calc_quote_loop_fn]
  | cons upper rest2 ih =>
    cases hch with
    | cons hpq hq =>
      rw [List.getLastD_cons]
      simp only [calc_quote_loop_fn]
      by_cases hle : x ≤ upper.amount_in
      · have hz : ¬ (upper.amount_in - lower.amount_in = 0) := by
          have := hpq.1; omega
        simp only [if_pos hle, if_neg hz]
        exact le_trans (seg_val_le_upper hpq.1 hpq.2 hle)
          (chain_out_le_getLastD upper rest2 hq)
      · simp only [if_neg hle]
        exact ih upper hq

theorem loop_fn_mono (lower : ProbePoint) (rest : List ProbePoint)
    (x y : Int) (hch : List.Chain probe_le lower rest)
    (hx : lower.amount_in < x) (hxy : x ≤ y) :
    calc_quote_loop_fn lower rest x ≤ calc_quote_loop_fn lower rest y := by
  induction rest generalizing lower with
  | nil => simp [calc_quote_loop_fn]
  | cons upper rest2 ih =>
    cases hch with
    | cons hpq hq =>
      simp only [calc_quote_loop_fn]
      have hz : ¬ (upper.amount_in - lower.amount_in = 0) := by
        have := hpq.1; omega
      have hd : (0:Int) < upper.amount_in - lower.amount_in := by
        have := hpq.1; omega
      by_cases hyle : y ≤ upper.amount_in
      · have hxle : x ≤ upper.amount_in := le_trans hxy hyle
        simp only [if_pos hxle, if_pos hyle, if_neg hz]
        rw [Int.fdiv_eq_ediv _ (le_of_lt hd), Int.fdiv_eq_ediv _ (le_of_lt hd)]
        have h1 : (x - lower.amount_in) *
            (upper.amount_out - lower.amount_out) ≤
            (y - lower.amount_in) * (upper.amount_out - lower.amount_out) :=
          mul_le_mul_of_nonneg_right (by omega) (by have := hpq.2; omega)
        have := Int.ediv_le_ediv hd h1
        omega
      · by_cases hxle : x ≤ upper.amount_in
        · simp only [if_pos hxle, if_neg hyle, if_neg hz]
          exact le_trans (seg_val_le_upper hpq.1 hpq.2 hxle)
            (loop_fn_ge_lower upper rest2 y hq (by omega))
        · simp only [if_neg hxle, if_neg hyle]
          exact ih upper hq (by omega)

theorem calc_fn_nonneg (first : ProbePoint) (rest : List ProbePoint)
    (x : Int) (hch : List.Chain probe_le first rest)
    (h0 : 0 ≤ first.amount_out) (hx : 1 ≤ x) :
    0 ≤ calc_quote_fn first rest x := by
  simp only [calc_quote_fn]
  by_cases hle : x ≤ first.amount_in
  · simp only [if_pos hle]
    by_cases hz : first.amount_in = 0
    · simp [hz]
    · simp only [if_neg hz]
      have hpos : (0:Int) < first.amount_in := by omega
      rw [Int.fdiv_eq_ediv _ (le_of_lt hpos)]
      exact Int.ediv_nonneg (mul_nonneg (by omega) h0) (le_of_lt hpos)
  · simp only [if_neg hle]
    exact le_trans h0 (loop_fn_ge_lower first rest x hch (by omega))

theorem calc_fn_le_last (first : ProbePoint) (rest : List ProbePoint)
    (x : Int) (hch : List.Chain probe_le first rest)
    (h0 : 0 ≤ first.amount_out) (hx : 1 ≤ x) :
    calc_quote_fn first rest x ≤ (rest.getLastD first).amount_out := by
  simp only [calc_quote_fn]
  by_cases hle : x ≤ first.amount_in
  · have hpos : (0:Int) < first.amount_in := by omega
    have hz : ¬ (first.amount_in = 0) := by omega
    simp only [if_pos hle, if_neg hz]
    have h1 : x * first.amount_out ≤ first.amount_in * first.amount_out :=
      mul_le_mul_of_nonneg_right hle h0
    rw [Int.fdiv_eq_ediv _ (le_of_lt hpos)]
    have h2 := Int.ediv_le_ediv hpos h1
    rw [Int.mul_ediv_cancel_left _ (ne_of_gt hpos)] at h2
    exact le_trans h2 (chain_out_le_getLastD first rest hch)
  · simp only [if_neg hle]
    exact loop_fn_le_last first rest x hch

theorem calc_fn_mono (first : ProbePoint) (rest : List ProbePoint)
    (x y : Int) (hch : List.Chain probe_le first rest)
    (h0 : 0 ≤ first.amount_out) (hx : 1 ≤ x) (hxy : x ≤ y) :
    calc_quote_fn first rest x ≤ calc_quote_fn first rest y := by
  simp only [calc_quote_fn]
  by_cases hyle : y ≤ first.amount_in
  · have hxle : x ≤ first.amount_in := le_trans hxy hyle
    have hpos : (0:Int) < first.amount_in := by omega
    have hz : ¬ (first.amount_in = 0) := by omega
    simp only [if_pos hxle, if_pos hyle, if_neg hz]
    rw [Int.fdiv_eq_ediv _ (le_of_lt hpos), Int.fdiv_eq_ediv _ (le_of_lt hpos)]
    exact Int.ediv_le_ediv hpos (mul_le_mul_of_nonneg_right hxy h0)
  · by_cases hxle : x ≤ first.amount_in
    · have hpos : (0:Int) < first.amount_in := by omega
      have hz : ¬ (first.amount_in = 0) := by omega
      simp only [if_pos hxle, if_neg hyle, if_neg hz]
      have h1 : x * first.amount_out ≤ first.amount_in * first.amount_out :=
        mul_le_mul_of_nonneg_right hxle h0
      rw [Int.fdiv_eq_ediv _ (le_of_lt hpos)]
      have h2 := Int.ediv_le_ediv hpos h1
      rw [Int.mul_ediv_cancel_left _ (ne_of_gt hpos)] at h2
      exact le_trans h2 (loop_fn_ge_lower first rest y hch (by omega))
    · simp only [if_neg hxle, if_neg hyle]
      exact loop_fn_mono first rest x y hch (by omega) hxy

theorem quote_amount_out_of_guard (direction : DirectionBook)
    (amount_in block_number : Int)
    (h : amount_in ≤ 0 ∨ direction.probes = []) :
    quote_amount_out direction amount_in block_number = 0 := by
  simp only [quote_amount_out, get_amount_out, if_pos h]
  rfl

theorem quote_amount_out_of_cons (direction : DirectionBook)
    (first : ProbePoint) (rest : List ProbePoint)
    (amount_in block_number : Int) (hp : direction.probes = first :: rest)
    (hx : 1 ≤ amount_in) :
    quote_amount_out direction amount_in block_number =
      calc_quote_fn first rest amount_in := by
  have hguard : ¬ (amount_in ≤ 0 ∨ (first :: rest : List ProbePoint) = []) := by
    push_neg
    exact ⟨by omega, by simp⟩
  simp only [quote_amount_out, get_amount_out, hp, calc_quote_cons_eq_fn,
    Option.map_some']
  rw [if_neg hguard]
  rfl

/-- Claim C1: for the curve `[(100,200),(300,500)]`, the engine returns
`amount_out = 100` for `amount_in = 50`, `350` for `200`, and `500`
(capped) for `1000`. -/
theorem exact_interpolation_examples :
    get_amount_out (build_direction_book "A" "B"
        [⟨100, 200⟩, ⟨300, 500⟩] 0 0) 50 7 =
      some { from_token := "A", to_token := "B", amount_in := 50,
             amount_out := 100, block_number := 7 } ∧
    get_amount_out (build_direction_book "A" "B"
        [⟨100, 200⟩, ⟨300, 500⟩] 0 0) 200 7 =
      some { from_token := "A", to_token := "B", amount_in := 200,
             amount_out := 350, block_number := 7 } ∧
    get_amount_out (build_direction_book "A" "B"
        [⟨100, 200⟩, ⟨300, 500⟩] 0 0) 1000 7 =
      some { from_token := "A", to_token := "B", amount_in := 1000,
             amount_out := 500, block_number := 7 } := by
  refine ⟨by decide, by decide, by decide⟩

/-- Claim C7: for any direction, a non-positive `amount_in` or an empty
probe list makes `get_amount_out` return (not raise) a `QuoteResult` with
`amount_out = 0`. -/
theorem nonpositive_or_empty_yields_zero (direction : DirectionBook)
    (amount_in block_number : Int)
    (h : amount_in ≤ 0 ∨ direction.probes = []) :
    get_amount_out direction amount_in block_number =
      some { from_token := direction.from_token
             to_token := direction.to_token
             amount_in := amount_in
             amount_out := 0
             block_number := block_number } := by
  simp only [get_amount_out, if_pos h, empty_result]

/-- Witness for claim C7 at a concrete empty curve. -/
theorem nonpositive_or_empty_yields_zero_witness :
    get_amount_out (build_direction_book "A" "B" [] 0 0) 5 3 =
      some { from_token := "A", to_token := "B", amount_in := 5,
             amount_out := 0, block_number := 3 } :=
  nonpositive_or_empty_yields_zero (build_direction_book "A" "B" [] 0 0) 5 3
    (Or.inr rfl)

/-- Claim C5: on a curve whose `amount_in` values are strictly increasing,
any query strictly beyond the last probe point returns exactly the last
probe point's `amount_out` (hard cap, no extrapolation). -/
theorem amount_beyond_last_probe_capped (first : ProbePoint)
    (rest : List ProbePoint) (amount_in : Int)
    (hsorted : List.Chain probe_lt_in first rest)
    (hbeyond : (rest.getLastD first).amount_in < amount_in) :
    calc_quote (first :: rest) amount_in =
      some (rest.getLastD first).amount_out := by
  induction rest generalizing first with
  | nil =>
    simp only [List.getLastD] at hbeyond ⊢
    simp only [calc_quote]
    rw [if_neg (by omega)]
    rfl
  | cons upper rest2 ih =>
    cases hsorted with
    | cons hpq hq =>
      rw [List.getLastD_cons] at hbeyond ⊢
      have hupper_le : upper.amount_in ≤ (rest2.getLastD upper).amount_in :=
        chain_in_le_getLastD upper rest2 hq
      have hfirst : first.amount_in < upper.amount_in := hpq
      simp only [calc_quote]
      rw [if_neg (by omega)]
      simp only [calc_quote_loop]
      rw [if_neg (by omega)]
      have hih := ih upper hq hbeyond
      simp only [calc_quote] at hih
      rw [if_neg (by omega : ¬ amount_in ≤ upper.amount_in)] at hih
      exact hih

/-- Witness for claim C5 at the spec's concrete curve and `amount_in = 1000`. -/
theorem amount_beyond_last_probe_capped_witness :
    calc_quote [⟨100, 200⟩, ⟨300, 500⟩] 1000 =
      some (([⟨300, 500⟩] : List ProbePoint).getLastD ⟨100, 200⟩).amount_out :=
  amount_beyond_last_probe_capped ⟨100, 200⟩ [⟨300, 500⟩] 1000
    (List.Chain.cons (by decide) List.Chain.nil) (by decide)

/-- Claim C4: the duplicate-`amount_in` curve `[(100,200),(100,250)]`
yields `amount_out = 200` at `amount_in = 100` without raising, and in
general a matched zero-input-width segment makes the loop return the lower
point's `amount_out` instead of dividing by zero. -/
theorem degenerate_segment_returns_lower_bound :
    (get_amount_out (build_direction_book "A" "B"
        [⟨100, 200⟩, ⟨100, 250⟩] 0 0) 100 0 =
      some { from_token := "A", to_token := "B", amount_in := 100,
             amount_out := 200, block_number := 0 }) ∧
    (∀ (lower upper : ProbePoint) (rest : List ProbePoint)
      (amount_in : Int),
      amount_in ≤ upper.amount_in → upper.amount_in = lower.amount_in →
      calc_quote_loop lower (upper :: rest) amount_in =
        some lower.amount_out) := by
  constructor
  · decide
  · intro lower upper rest amount_in hle heq
    simp only [calc_quote_loop, if_pos hle]
    rw [if_pos (by omega)]

/-- Witness for claim C4's general part at a concrete degenerate segment. -/
theorem degenerate_segment_returns_lower_bound_witness :
    calc_quote_loop ⟨100, 200⟩ [⟨100, 250⟩] 100 = some 200 :=
  degenerate_segment_returns_lower_bound.2 ⟨100, 200⟩ ⟨100, 250⟩ [] 100
    (by decide) (by decide)

/-- Claim C10: `get_amount_out` is total — for every integer `amount_in`
and every probe list it returns a result and never raises — and whenever
`amount_in ≥ 1` (which holds for every call `get_amount_out` makes into
`_calc_quote`), the `first.amount_in == 0` guard of the origin segment is
dead code: removing it does not change the function. -/
theorem engine_total_and_origin_guard_redundant (direction : DirectionBook)
    (amount_in block_number : Int) :
    (∃ r, get_amount_out direction amount_in block_number = some r) ∧
    (1 ≤ amount_in →
      calc_quote direction.probes amount_in =
        calc_quote_noguard direction.probes amount_in) := by
  constructor
  · by_cases h : amount_in ≤ 0 ∨ direction.probes = []
    · exact ⟨empty_result direction amount_in 0 block_number,
        by simp only [get_amount_out, if_pos h]⟩
    · cases hpp : direction.probes with
      | nil => exact absurd hpp (by push_neg at h; exact h.2)
      | cons first rest =>
        refine ⟨{ from_token := direction.from_token
                  to_token := direction.to_token
                  amount_in := amount_in
                  amount_out := calc_quote_fn first rest amount_in
                  block_number := block_number }, ?_⟩
        have h2 : ¬ (amount_in ≤ 0 ∨ (first :: rest : List ProbePoint) = []) := by
          rw [hpp] at h; exact h
        simp only [get_amount_out, hpp, calc_quote_cons_eq_fn,
          Option.map_some']
        rw [if_neg h2]
  · intro hx
    cases hpp : direction.probes with
    | nil => rfl
    | cons first rest =>
      simp only [calc_quote, calc_quote_noguard]
      by_cases hle : amount_in ≤ first.amount_in
      · have hz : ¬ (first.amount_in = 0) := by omega
        rw [if_pos hle, if_pos hle, if_neg hz]
      · rw [if_neg hle, if_neg hle]

/-- Witness for claim C10 at a concrete curve and input. -/
theorem engine_total_and_origin_guard_redundant_witness :
    (∃ r, get_amount_out (build_direction_book "A" "B"
        [⟨100, 200⟩, ⟨300, 500⟩] 0 0) 7 3 = some r) ∧
    calc_quote (build_direction_book "A" "B"
        [⟨100, 200⟩, ⟨300, 500⟩] 0 0).probes 7 =
      calc_quote_noguard (build_direction_book "A" "B"
        [⟨100, 200⟩, ⟨300, 500⟩] 0 0).probes 7 :=
  ⟨(engine_total_and_origin_guard_redundant _ 7 3).1,
    (engine_total_and_origin_guard_redundant
      (build_direction_book "A" "B" [⟨100, 200⟩, ⟨300, 500⟩] 0 0) 7 3).2
      (by decide)⟩

/-- Claim C9: on a curve with strictly increasing `amount_in` and
non-decreasing, non-negative `amount_out`, the engine's output is monotone
non-decreasing in `amount_in` and never exceeds the last probe point's
`amount_out`. -/
theorem engine_monotone_and_capped (direction : DirectionBook)
    (x y block_number : Int) (hs : SortedCurve direction.probes) :
    (x ≤ y → quote_amount_out direction x block_number ≤
      quote_amount_out direction y block_number) ∧
    (∀ l, direction.probes.getLast? = some l →
      quote_amount_out direction x block_number ≤ l.amount_out) := by
  obtain ⟨hch', hnn⟩ := hs
  cases hpp : direction.probes with
  | nil =>
    constructor
    · intro _
      rw [quote_amount_out_of_guard _ _ _ (Or.inr hpp),
        quote_amount_out_of_guard _ _ _ (Or.inr hpp)]
    · intro l hl
      simp at hl
  | cons first rest =>
    rw [hpp] at hch' hnn
    have hch : List.Chain probe_le first rest := hch'
    have h0 : 0 ≤ first.amount_out :=
      hnn first (List.mem_cons_self first rest)
    have hnonneg : ∀ z : Int,
        0 ≤ quote_amount_out direction z block_number := by
      intro z
      by_cases hz : z ≤ 0
      · rw [quote_amount_out_of_guard _ _ _ (Or.inl hz)]
      · rw [quote_amount_out_of_cons direction first rest z block_number hpp
          (by omega)]
        exact calc_fn_nonneg first rest z hch h0 (by omega)
    constructor
    · intro hxy
      by_cases hx : x ≤ 0
      · rw [quote_amount_out_of_guard _ _ _ (Or.inl hx)]
        exact hnonneg y
      · rw [quote_amount_out_of_cons direction first rest x block_number hpp
            (by omega),
          quote_amount_out_of_cons direction first rest y block_number hpp
            (by omega)]
        exact calc_fn_mono first rest x y hch h0 (by omega) hxy
    · intro l hl
      rw [getLast?_eq_some_getLastD] at hl
      injection hl with hl2
      subst hl2
      by_cases hx : x ≤ 0
      · rw [quote_amount_out_of_guard _ _ _ (Or.inl hx)]
        exact hnn _ (List.getLastD_mem_cons rest first)
      · rw [quote_amount_out_of_cons direction first rest x block_number hpp
          (by omega)]
        exact calc_fn_le_last first rest x hch h0 (by omega)

/-- Witness for claim C9 on the spec's concrete sorted curve. -/
theorem engine_monotone_and_capped_witness :
    quote_amount_out (build_direction_book "A" "B"
      [⟨100, 200⟩, ⟨300, 500⟩] 0 0) 50 7 ≤
    quote_amount_out (build_direction_book "A" "B"
      [⟨100, 200⟩, ⟨300, 500⟩] 0 0) 200 7 :=
  (engine_monotone_and_capped
    (build_direction_book "A" "B" [⟨100, 200⟩, ⟨300, 500⟩] 0 0) 50 200 7
    ⟨List.Chain.cons (by decide) List.Chain.nil, by decide⟩).1 (by decide)

/-- Claim C2: a refresh whose fetched result is not strictly newer than the
published block leaves the whole published state unchanged, and the
published block number is monotone under any single refresh and any
sequence of refreshes — a published higher block is never overwritten by a
later-arriving lower one. -/
theorem stale_refresh_discarded_and_block_monotone :
    (∀ (st : ClientState) (result : FetchResult),
      result.block_number ≤ st.current_block →
      on_new_block st (FetchOutcome.ok result) = st) ∧
    (∀ (st : ClientState) (outcome : FetchOutcome),
      st.current_block ≤ (on_new_block st outcome).current_block) ∧
    (∀ (st : ClientState) (outcomes : List FetchOutcome),
      st.current_block ≤
        (outcomes.foldl on_new_block st).current_block) := by
  have hstep : ∀ (st : ClientState) (outcome : FetchOutcome),
      st.current_block ≤ (on_new_block st outcome).current_block := by
    intro st outcome
    cases outcome with
    | raised => exact le_refl _
    | ok result =>
      simp only [on_new_block]
      by_cases h : result.block_number ≤ st.current_block
      · rw [if_pos h]
      · rw [if_neg h]
        simp only [published_snapshot]
        omega
  refine ⟨?_, hstep, ?_⟩
  · intro st result h
    simp only [on_new_block, if_pos h]
  · intro st outcomes
    induction outcomes generalizing st with
    | nil => exact le_refl _
    | cons o os ih =>
      exact le_trans (hstep st o) (ih (on_new_block st o))

/-- Witness for claim C2: a stale candidate at block 9 does not disturb a
snapshot published at block 10. -/
theorem stale_refresh_discarded_witness :
    on_new_block
      { directions := fun _ => none, pair_keys := [], current_block := 10,
        block_timestamp := 100, initialized := true }
      (FetchOutcome.ok
        { pairs := [], block_number := 9, block_timestamp := 90 }) =
      { directions := fun _ => none, pair_keys := [], current_block := 10,
        block_timestamp := 100, initialized := true } :=
  stale_refresh_discarded_and_block_monotone.1
    { directions := fun _ => none, pair_keys := [], current_block := 10,
      block_timestamp := 100, initialized := true }
    { pairs := [], block_number := 9, block_timestamp := 90 } (by decide)

/-- Claim C3: a refresh whose fetch raises is fully abandoned — the state
(directions, pair keys, block number, timestamp, initialized flag) is
untouched, nothing propagates to readers, and `quote` answers exactly as it
did against the last good snapshot. -/
theorem fetch_failure_leaves_state_and_quotes_unchanged
    (st : ClientState) :
    on_new_block st FetchOutcome.raised = st ∧
    (∀ (checksum : String → String) (from_token to_token : String)
      (amount_in : Int),
      quote checksum (on_new_block st FetchOutcome.raised) from_token
          to_token amount_in =
        quote checksum st from_token to_token amount_in) :=
  ⟨rfl, fun _ _ _ _ => rfl⟩

/-- Claim C6: quoting a direction whose key is absent from the published
mapping returns Python `None` rather than raising; a present direction is
delegated to the engine, stamped with the current snapshot's block number. -/
theorem quote_absent_returns_none_else_delegates
    (checksum : String → String) (st : ClientState)
    (from_token to_token : String) (amount_in : Int) :
    (st.directions (checksum from_token, checksum to_token) = none →
      quote checksum st from_token to_token amount_in = some none) ∧
    (∀ direction,
      st.directions (checksum from_token, checksum to_token) =
        some direction →
      quote checksum st from_token to_token amount_in =
        (get_amount_out direction amount_in st.current_block).map some) := by
  constructor
  · intro h
    simp only [quote, get_direction, h]
  · intro direction h
    simp only [quote, get_direction, h]

/-- Witness for claim C6: on the freshly initialised client every direction
is absent and `quote` returns `None`. -/
theorem quote_absent_returns_none_witness :
    quote id init_state "A" "B" 5 = some none :=
  (quote_absent_returns_none_else_delegates id init_state "A" "B" 5).1 rfl

/-- Claim C8: every state reachable by any interleaving of refresh
completions is either the initial state or, in full, the published snapshot
of a single fetched result — all four published fields (directions, pair
keys, block number, timestamp) always stem from one `FetchResult`, so a
reader (`quote`, `current_block`, `block_timestamp`, `pairs`) can never
observe a mix of an old and a new snapshot.  The publish step's four field
writes sit between two `await` points of `_on_new_block` and therefore
execute as one atomic step under cooperative scheduling, which is what the
single-step `on_new_block` transition encodes. -/
theorem reader_never_observes_torn_snapshot
    (outcomes : List FetchOutcome) :
    run_refreshes outcomes = init_state ∨
    ∃ result, FetchOutcome.ok result ∈ outcomes ∧
      run_refreshes outcomes = published_snapshot result := by
  have key : ∀ (os : List FetchOutcome) (st : ClientState),
      os.foldl on_new_block st = st ∨
      ∃ r, FetchOutcome.ok r ∈ os ∧
        os.foldl on_new_block st = published_snapshot r := by
    intro os
    induction os with
    | nil => intro st; exact Or.inl rfl
    | cons o os2 ih =>
      intro st
      rcases ih (on_new_block st o) with h | ⟨r, hr, heq⟩
      · cases o with
        | raised => exact Or.inl h
        | ok result =>
          simp only [List.foldl_cons] at h ⊢
          by_cases hb : result.block_number ≤ st.current_block
          · left
            rw [h]
            simp only [on_new_block, if_pos hb]
          · right
            refine ⟨result, List.mem_cons_self _ _, ?_⟩
            rw [h]
            simp only [on_new_block, if_neg hb]
      · exact Or.inr ⟨r, List.mem_cons_of_mem _ hr, heq⟩
  exact key outcomes init_state
